import Mathlib

/-!
Verification of the phoenix-sdk client core against its specification.

The development shallowly embeds the Rust sources
`rust/phoenix-sdk-core/src/sdk_client_core.rs` and
`rust/phoenix-sdk/src/event_poller.rs`:

* `u64` values are modelled as `Nat`; Rust release-profile wrapping
  multiplication is modelled explicitly as `mulU64` (reduction modulo `2 ^ 64`).
* A Rust function that can panic is modelled with an explicit `RustResult`
  (or `DecodeOutcome`) value whose `panic` constructor marks process
  termination; `DecodeOutcome.fail` models an `Option`-typed `None` that is
  propagated to the caller.
* Byte buffers are lists of `Nat` (each element a byte value below 256 in any
  buffer produced by the encoders below).
-/

/-- The modulus of 64-bit unsigned arithmetic. -/
def U64_MOD : Nat := 2 ^ 64

/-- Rust release-profile `u64` multiplication: wraps modulo `2 ^ 64`. -/
def mulU64 (a b : Nat) : Nat := (a * b) % U64_MOD

/-- Result of running a piece of Rust code that can panic: either a value or a
process abort (`panic`). -/
inductive RustResult (α : Type) where
  | ok (a : α)
  | panic (msg : String)
deriving DecidableEq

/-- Sequencing of two panicking computations. -/
def RustResult.bind {α β : Type} : RustResult α → (α → RustResult β) → RustResult β
  | .ok a, f => f a
  | .panic msg, _ => .panic msg

/-- Result of the audit-log decoder: a decoded value, a typed failure that is
propagated to the caller (the Rust code returns `Option` and uses `.ok()?`), or
a process abort (`panic!` or an out-of-bounds slice index). -/
inductive DecodeOutcome (α : Type) where
  | ok (a : α)
  | fail
  | panic (msg : String)
deriving DecidableEq

/-- Per-market scaling constants, from `struct MarketMetadata` in
`sdk_client_core.rs`.  Mint addresses are modelled as `Nat`. -/
structure MarketMetadata where
  base_mint : Nat
  quote_mint : Nat
  base_decimals : Nat
  quote_decimals : Nat
  base_multiplier : Nat
  quote_multiplier : Nat
  quote_lot_size : Nat
  base_lot_size : Nat
  tick_size : Nat
  num_base_lots_per_base_unit : Nat
  num_quote_lots_per_tick : Nat
deriving DecidableEq

/-- The client core state, from `struct SDKClientCore`.  The `BTreeMap` market
registry is modelled as an association list with unique keys; the shared random
source (`rng`), used only by functions outside the claims, is omitted. -/
structure SDKClientCore where
  markets : List (Nat × MarketMetadata)
  active_market_key : Nat
  trader : Nat
deriving DecidableEq

/-- `SDKClientCore::get_active_market_metadata`: `self.markets.get(...).unwrap()`.
The `unwrap` of a missing entry is a Rust panic. -/
def get_active_market_metadata (core : SDKClientCore) : RustResult MarketMetadata :=
  match core.markets.lookup core.active_market_key with
  | some meta => .ok meta
  | none => .panic "called unwrap on a None value"

/-- `SDKClientCore::base_amount_to_base_lots`: `base_amount / market.base_lot_size`
after an unwrapped market lookup.  Division by zero is a Rust panic. -/
def base_amount_to_base_lots (core : SDKClientCore) (base_amount : Nat) : RustResult Nat :=
  match core.markets.lookup core.active_market_key with
  | some market =>
    if market.base_lot_size = 0 then .panic "attempt to divide by zero"
    else .ok (base_amount / market.base_lot_size)
  | none => .panic "called unwrap on a None value"

/-- `SDKClientCore::base_lots_to_base_amount`: `base_lots * market.base_lot_size`
after an unwrapped market lookup. -/
def base_lots_to_base_amount (core : SDKClientCore) (base_lots : Nat) : RustResult Nat :=
  match core.markets.lookup core.active_market_key with
  | some market => .ok (mulU64 base_lots market.base_lot_size)
  | none => .panic "called unwrap on a None value"

/-- `SDKClientCore::quote_amount_to_quote_lots`. -/
def quote_amount_to_quote_lots (core : SDKClientCore) (quote_amount : Nat) : RustResult Nat :=
  match core.markets.lookup core.active_market_key with
  | some market =>
    if market.quote_lot_size = 0 then .panic "attempt to divide by zero"
    else .ok (quote_amount / market.quote_lot_size)
  | none => .panic "called unwrap on a None value"

/-- `SDKClientCore::quote_lots_to_quote_amount`. -/
def quote_lots_to_quote_amount (core : SDKClientCore) (quote_lots : Nat) : RustResult Nat :=
  match core.markets.lookup core.active_market_key with
  | some market => .ok (mulU64 quote_lots market.quote_lot_size)
  | none => .panic "called unwrap on a None value"

/-- `SDKClientCore::order_to_quote_amount`:
`base_lots * price_in_ticks * num_quote_lots_per_tick * quote_lot_size
  / num_base_lots_per_base_unit`, all in `u64` arithmetic (each multiplication
wraps modulo `2 ^ 64` in a release build), after an unwrapped market lookup. -/
def order_to_quote_amount (core : SDKClientCore) (base_lots price_in_ticks : Nat) :
    RustResult Nat :=
  match core.markets.lookup core.active_market_key with
  | some market =>
    if market.num_base_lots_per_base_unit = 0 then .panic "attempt to divide by zero"
    else
      .ok (mulU64 (mulU64 (mulU64 base_lots price_in_ticks) market.num_quote_lots_per_tick)
            market.quote_lot_size / market.num_base_lots_per_base_unit)
  | none => .panic "called unwrap on a None value"

/-- Modelled from the spec: the formula of `order_to_quote_amount` as the spec
words it, evaluated left-to-right with a `u128` intermediate (each step modulo
`2 ^ 128`) and then narrowed to `u64`.  This definition follows the sentence of
the spec, not the source, and is compared against `order_to_quote_amount`. -/
def order_to_quote_amount_spec_u128 (market : MarketMetadata)
    (base_lots price_in_ticks : Nat) : Nat :=
  let m128 : Nat := 2 ^ 128
  ((((base_lots * price_in_ticks) % m128 * market.num_quote_lots_per_tick) % m128
      * market.quote_lot_size) % m128 / market.num_base_lots_per_base_unit) % U64_MOD

/-- `SDKClientCore::change_active_market`: returns `Ok(())` and updates the
active key when the market is registered, otherwise the error string
`"Market not found"` leaving the state untouched.  The pair holds the error
(`none` on success) and the state after the call. -/
def change_active_market (core : SDKClientCore) (market : Nat) :
    Option String × SDKClientCore :=
  match core.markets.lookup market with
  | some _ => (none, { core with active_market_key := market })
  | none => (some "Market not found", core)

/-- Order side, from the external `phoenix_types::enums::Side`. -/
inductive Side where
  | Bid
  | Ask
deriving DecidableEq

/-- Modelled from the spec: `Side::from_order_sequence_number` lives in the
external `phoenix_types` crate; the spec says the side of an order is derived
from the low bit of its sequence number. -/
def sideFromOrderSequenceNumber (n : Nat) : Side :=
  if n % 2 = 0 then .Bid else .Ask

/-- Self-trade policy, from the external `phoenix_types::enums::SelfTradeBehavior`. -/
inductive SelfTradeBehavior where
  | DecrementTake
  | CancelProvide
  | Abort
deriving DecidableEq

/-- The arguments the SDK passes to the external
`OrderPacket::new_ioc_by_lots` constructor in `get_ioc_generic_ix`. -/
structure IocByLotsArgs where
  side : Side
  price_in_ticks : Nat
  num_base_lots : Nat
  self_trade_behavior : SelfTradeBehavior
  match_limit : Option Nat
  client_order_id : Nat
  use_only_deposited_funds : Bool
deriving DecidableEq

/-- The arguments the SDK passes to the external
`OrderPacket::new_limit_order` constructor in `get_limit_order_generic_ix`. -/
structure LimitOrderArgs where
  side : Side
  price_in_ticks : Nat
  size : Nat
  self_trade_behavior : SelfTradeBehavior
  match_limit : Option Nat
  client_order_id : Nat
  use_only_deposited_funds : Bool
deriving DecidableEq

/-- `SDKClientCore::get_ioc_generic_ix`, up to the external instruction
constructor: resolves the market (`self.markets[..]`, a panicking index),
truncates the price to ticks, and fills in the defaults
(`CancelProvide`, client order id `0`, `use_only_deposited_funds = false`). -/
def get_ioc_generic_ix (core : SDKClientCore) (price : Nat) (side : Side)
    (num_base_lots : Nat) (self_trade_behavior : Option SelfTradeBehavior)
    (match_limit : Option Nat) (client_order_id : Option Nat)
    (use_only_deposited_funds : Option Bool) : RustResult IocByLotsArgs :=
  match core.markets.lookup core.active_market_key with
  | some meta =>
    if meta.tick_size = 0 then .panic "attempt to divide by zero"
    else
      .ok { side := side
            price_in_ticks := price / meta.tick_size
            num_base_lots := num_base_lots
            self_trade_behavior := self_trade_behavior.getD .CancelProvide
            match_limit := match_limit
            client_order_id := client_order_id.getD 0
            use_only_deposited_funds := use_only_deposited_funds.getD false }
  | none => .panic "key not found in map"

/-- `SDKClientCore::get_limit_order_generic_ix`, up to the external instruction
constructor: like `get_ioc_generic_ix` but the unspecified self-trade policy
defaults to `DecrementTake`. -/
def get_limit_order_generic_ix (core : SDKClientCore) (price : Nat) (side : Side)
    (size : Nat) (self_trade_behavior : Option SelfTradeBehavior)
    (match_limit : Option Nat) (client_order_id : Option Nat)
    (use_only_deposited_funds : Option Bool) : RustResult LimitOrderArgs :=
  match core.markets.lookup core.active_market_key with
  | some meta =>
    if meta.tick_size = 0 then .panic "attempt to divide by zero"
    else
      .ok { side := side
            price_in_ticks := price / meta.tick_size
            size := size
            self_trade_behavior := self_trade_behavior.getD .DecrementTake
            match_limit := match_limit
            client_order_id := client_order_id.getD 0
            use_only_deposited_funds := use_only_deposited_funds.getD false }
  | none => .panic "key not found in map"

/-- One cycle of the loop body of `EventPoller::run` (`event_poller.rs`),
for a fetched signature list `sigs` (newest first, as the RPC returns it) and
an injected per-signature decode capability `fetch`.  The source iterates
`sigs.iter().enumerate().rev()`, sets the cursor (`until`) when the enumeration
index is `0`, and sends one message of decoded events per signature; the model
returns the cursor after the cycle and the sent messages in send order.
Signatures are modelled as `Nat`; the channel is modelled as always accepting
(a failed send only skips the send itself and touches neither the cursor nor
later iterations). -/
def pollCycle {α : Type} (sigs : List Nat) (fetch : Nat → List α)
    (until0 : Option Nat) : Option Nat × List (List α) :=
  (sigs.enum.reverse).foldl
    (fun acc p => ((if p.1 = 0 then some p.2 else acc.1), acc.2 ++ [fetch p.2]))
    (until0, [])

/-- `AUDIT_LOG_HEADER_LEN` from `sdk_client_core.rs`. -/
def AUDIT_LOG_HEADER_LEN : Nat := 92

/-- Little-endian value of a byte list (borsh integer encoding). -/
def readLE : List Nat → Nat
  | [] => 0
  | b :: bs => b + 256 * readLE bs

/-- The `n`-byte little-endian encoding of `v % 256 ^ n`. -/
def writeLE : Nat → Nat → List Nat
  | 0, _ => []
  | n + 1, v => v % 256 :: writeLE n (v / 256)

/-- The header record decoded from the fixed 92-byte prefix of one
transaction log.  The source reads `header.market`,
`header.market_sequence_number`, `header.slot`, `header.timestamp` and
`header.signer`; the header type itself lives in the external
`phoenix_types` crate. -/
structure AuditLogHeader where
  market : Nat
  market_sequence_number : Nat
  slot : Nat
  timestamp : Nat
  signer : Nat
deriving DecidableEq

/-- Modelled from the spec: the external `phoenix_types::events::MarketEvent`
enum that borsh deserialization of an audit-log slice produces.  Field lists
follow the destructuring patterns in `parse_wrapper_events`; only the fields
the SDK reads are kept. -/
inductive MarketEvent where
  | uninitialized
  | header (h : AuditLogHeader)
  | fill (index maker_id order_sequence_number price_in_ticks
      base_lots_filled base_lots_remaining : Nat)
  | place (index order_sequence_number client_order_id price_in_ticks
      base_lots_placed : Nat)
  | reduce (index order_sequence_number price_in_ticks base_lots_removed
      base_lots_remaining : Nat)
  | evict (index maker_id order_sequence_number price_in_ticks
      base_lots_evicted : Nat)
  | fillSummary (index client_order_id total_base_lots_filled
      total_quote_lots_filled total_fee_in_quote_lots : Nat)
deriving DecidableEq

/-- Modelled from the spec: borsh `MarketEvent::try_from_slice` of the external
crate.  The first byte is the enum discriminant (`Uninitialized = 0`,
`Header = 1`, `Fill = 2`, `Place = 3`, `Reduce = 4`, `Evict = 5`,
`FillSummary = 6`, anything larger is a deserialization error); fields are
fixed-width little-endian integers (public keys 32 bytes, `u64` 8 bytes,
`u128` 16 bytes, record `index` 2 bytes) read in the order of the field list,
and the whole slice must be consumed exactly.  The per-variant slice lengths
match both the byte-length table of the spec and the slice sizes taken by
`parse_wrapper_events` (header 92; Fill 67, Place 43, Reduce 35, Evict 58,
FillSummary 43, each including the discriminant byte); the spec does not name
the last three header payload bytes, so they are ignored, and the `index` of
`Evict` is read as a single byte so that the total is the 58 bytes that both
the spec table and the source fix for it. -/
def marketEventFromSlice (s : List Nat) : Option MarketEvent :=
  match s with
  | [] => none
  | b :: p =>
    if b = 0 then
      if p.length = 0 then some .uninitialized else none
    else if b = 1 then
      if p.length = 91 then
        some (.header
          { market := readLE (p.take 32)
            market_sequence_number := readLE ((p.drop 32).take 8)
            slot := readLE (((p.drop 32).drop 8).take 8)
            timestamp := readLE ((((p.drop 32).drop 8).drop 8).take 8)
            signer := readLE (((((p.drop 32).drop 8).drop 8).drop 8).take 32) })
      else none
    else if b = 2 then
      if p.length = 66 then
        some (.fill (readLE (p.take 2)) (readLE ((p.drop 2).take 32))
          (readLE (((p.drop 2).drop 32).take 8))
          (readLE ((((p.drop 2).drop 32).drop 8).take 8))
          (readLE (((((p.drop 2).drop 32).drop 8).drop 8).take 8))
          (readLE ((((((p.drop 2).drop 32).drop 8).drop 8).drop 8).take 8)))
      else none
    else if b = 3 then
      if p.length = 42 then
        some (.place (readLE (p.take 2)) (readLE ((p.drop 2).take 8))
          (readLE (((p.drop 2).drop 8).take 16))
          (readLE ((((p.drop 2).drop 8).drop 16).take 8))
          (readLE (((((p.drop 2).drop 8).drop 16).drop 8).take 8)))
      else none
    else if b = 4 then
      if p.length = 34 then
        some (.reduce (readLE (p.take 2)) (readLE ((p.drop 2).take 8))
          (readLE (((p.drop 2).drop 8).take 8))
          (readLE ((((p.drop 2).drop 8).drop 8).take 8))
          (readLE (((((p.drop 2).drop 8).drop 8).drop 8).take 8)))
      else none
    else if b = 5 then
      if p.length = 57 then
        some (.evict (readLE (p.take 1)) (readLE ((p.drop 1).take 32))
          (readLE (((p.drop 1).drop 32).take 8))
          (readLE ((((p.drop 1).drop 32).drop 8).take 8))
          (readLE (((((p.drop 1).drop 32).drop 8).drop 8).take 8)))
      else none
    else if b = 6 then
      if p.length = 42 then
        some (.fillSummary (readLE (p.take 2)) (readLE ((p.drop 2).take 16))
          (readLE (((p.drop 2).drop 16).take 8))
          (readLE ((((p.drop 2).drop 16).drop 8).take 8))
          (readLE (((((p.drop 2).drop 16).drop 8).drop 8).take 8)))
      else none
    else none

/-- Modelled from the spec: payload of a `Fill` event
(`crate::market_event::Fill`, a repository file outside `src/`), with the
fields the decoder fills in. -/
structure Fill where
  order_sequence_number : Nat
  maker : Nat
  taker : Nat
  price_in_ticks : Nat
  base_lots_filled : Nat
  base_lots_remaining : Nat
  side_filled : Side
  is_full_fill : Bool
deriving DecidableEq

/-- Modelled from the spec: payload of a `Reduce` event. -/
structure Reduce where
  order_sequence_number : Nat
  maker : Nat
  price_in_ticks : Nat
  base_lots_removed : Nat
  base_lots_remaining : Nat
  is_full_cancel : Bool
deriving DecidableEq

/-- Modelled from the spec: payload of a `Place` event. -/
structure Place where
  order_sequence_number : Nat
  client_order_id : Nat
  maker : Nat
  price_in_ticks : Nat
  base_lots_placed : Nat
deriving DecidableEq

/-- Modelled from the spec: payload of an `Evict` event. -/
structure Evict where
  order_sequence_number : Nat
  maker : Nat
  price_in_ticks : Nat
  base_lots_evicted : Nat
deriving DecidableEq

/-- Modelled from the spec: payload of a `FillSummary` event.  The three
amount fields hold absolute amounts (lot counts already multiplied by the lot
sizes by the decoder). -/
structure FillSummary where
  client_order_id : Nat
  total_base_filled : Nat
  total_quote_filled_including_fees : Nat
  total_quote_fees : Nat
deriving DecidableEq

/-- Modelled from the spec: the `MarketEventDetails` sum of the five decoded
event payloads. -/
inductive MarketEventDetails where
  | Fill (f : Fill)
  | Place (p : Place)
  | Reduce (r : Reduce)
  | Evict (e : Evict)
  | FillSummary (f : FillSummary)
deriving DecidableEq

/-- Modelled from the spec: the `PhoenixEvent` envelope combining the shared
header fields with one payload. -/
structure PhoenixEvent where
  market : Nat
  sequence_number : Nat
  slot : Nat
  timestamp : Nat
  signature : Nat
  signer : Nat
  event_index : Nat
  details : MarketEventDetails
deriving DecidableEq

/-- The record phase of `parse_wrapper_events` on the bytes remaining after
the 92-byte header prefix of one transaction log (the `while offset < num_bytes`
loop).  `rem` plays the role of `event[offset..]`:

* an empty remainder ends the loop;
* the byte at the cursor is deserialized as `MarketEventWrapper` (defined in
  the source with discriminants `Uninitialized = 0` .. `FillSummary = 6`);
  a byte of 7 or more is a borsh error propagated with `.ok()?` as `fail`;
* the `Fill`/`Reduce`/`Place`/`Evict`/`FillSummary` arms slice
  `event[offset..offset + size]` with the literal `size` of the arm (67, 35,
  43, 58, 43) — an out-of-range slice is a Rust panic — then deserialize the
  slice, propagate a failure as `fail`, push the decoded `PhoenixEvent` and
  advance the cursor by `size`;
* the remaining wrapper variants (`Uninitialized`, `Header`) hit the
  `panic!("Unexpected Event!")` arm.

The structural-recursion fuel is always called with at least the length of
`rem`, which each iteration shortens by at least 35. -/
def parseBuffer (meta : MarketMetadata) (hdr : AuditLogHeader) (sig : Nat) :
    Nat → List Nat → List PhoenixEvent → DecodeOutcome (List PhoenixEvent)
  | _, [], acc => .ok acc
  | 0, _ :: _, _ => .panic "out of fuel"
  | fuel + 1, b :: rest, acc =>
    if b ≤ 6 then
      if b = 2 then
        if (b :: rest).length < 67 then .panic "range end index out of range"
        else
          match marketEventFromSlice ((b :: rest).take 67) with
          | none => .fail
          | some (.fill index maker_id order_sequence_number price_in_ticks
              base_lots_filled base_lots_remaining) =>
            parseBuffer meta hdr sig fuel ((b :: rest).drop 67)
              (acc ++ [{ market := hdr.market
                         sequence_number := hdr.market_sequence_number
                         slot := hdr.slot
                         timestamp := hdr.timestamp
                         signature := sig
                         signer := hdr.signer
                         event_index := index
                         details := .Fill
                           { order_sequence_number := order_sequence_number
                             maker := maker_id
                             taker := hdr.signer
                             price_in_ticks := price_in_ticks
                             base_lots_filled := base_lots_filled
                             base_lots_remaining := base_lots_remaining
                             side_filled :=
                               sideFromOrderSequenceNumber order_sequence_number
                             is_full_fill := base_lots_remaining == 0 } }])
          | some _ => .panic "Expected a fill event"
      else if b = 4 then
        if (b :: rest).length < 35 then .panic "range end index out of range"
        else
          match marketEventFromSlice ((b :: rest).take 35) with
          | none => .fail
          | some (.reduce index order_sequence_number price_in_ticks
              base_lots_removed base_lots_remaining) =>
            parseBuffer meta hdr sig fuel ((b :: rest).drop 35)
              (acc ++ [{ market := hdr.market
                         sequence_number := hdr.market_sequence_number
                         slot := hdr.slot
                         timestamp := hdr.timestamp
                         signature := sig
                         signer := hdr.signer
                         event_index := index
                         details := .Reduce
                           { order_sequence_number := order_sequence_number
                             maker := hdr.signer
                             price_in_ticks := price_in_ticks
                             base_lots_removed := base_lots_removed
                             base_lots_remaining := base_lots_remaining
                             is_full_cancel := base_lots_remaining == 0 } }])
          | some _ => .panic "Expected a reduce event"
      else if b = 3 then
        if (b :: rest).length < 43 then .panic "range end index out of range"
        else
          match marketEventFromSlice ((b :: rest).take 43) with
          | none => .fail
          | some (.place index order_sequence_number client_order_id
              price_in_ticks base_lots_placed) =>
            parseBuffer meta hdr sig fuel ((b :: rest).drop 43)
              (acc ++ [{ market := hdr.market
                         sequence_number := hdr.market_sequence_number
                         slot := hdr.slot
                         timestamp := hdr.timestamp
                         signature := sig
                         signer := hdr.signer
                         event_index := index
                         details := .Place
                           { order_sequence_number := order_sequence_number
                             client_order_id := client_order_id
                             maker := hdr.signer
                             price_in_ticks := price_in_ticks
                             base_lots_placed := base_lots_placed } }])
          | some _ => .panic "Expected a place event"
      else if b = 5 then
        if (b :: rest).length < 58 then .panic "range end index out of range"
        else
          match marketEventFromSlice ((b :: rest).take 58) with
          | none => .fail
          | some (.evict index maker_id order_sequence_number price_in_ticks
              base_lots_evicted) =>
            parseBuffer meta hdr sig fuel ((b :: rest).drop 58)
              (acc ++ [{ market := hdr.market
                         sequence_number := hdr.market_sequence_number
                         slot := hdr.slot
                         timestamp := hdr.timestamp
                         signature := sig
                         signer := hdr.signer
                         event_index := index
                         details := .Evict
                           { order_sequence_number := order_sequence_number
                             maker := maker_id
                             price_in_ticks := price_in_ticks
                             base_lots_evicted := base_lots_evicted } }])
          | some _ => .panic "Expected a place event"
      else if b = 6 then
        if (b :: rest).length < 43 then .panic "range end index out of range"
        else
          match marketEventFromSlice ((b :: rest).take 43) with
          | none => .fail
          | some (.fillSummary index client_order_id total_base_lots_filled
              total_quote_lots_filled total_fee_in_quote_lots) =>
            parseBuffer meta hdr sig fuel ((b :: rest).drop 43)
              (acc ++ [{ market := hdr.market
                         sequence_number := hdr.market_sequence_number
                         slot := hdr.slot
                         timestamp := hdr.timestamp
                         signature := sig
                         signer := hdr.signer
                         event_index := index
                         details := .FillSummary
                           { client_order_id := client_order_id
                             total_base_filled :=
                               mulU64 total_base_lots_filled meta.base_lot_size
                             total_quote_filled_including_fees :=
                               mulU64 total_quote_lots_filled meta.quote_lot_size
                             total_quote_fees :=
                               mulU64 total_fee_in_quote_lots meta.quote_lot_size } }])
          | some _ => .panic "Expected fill summary event"
      else .panic "Unexpected Event!"
    else .fail

/-- The per-buffer loop of `parse_wrapper_events`: for each transaction log in
`events`, slice the fixed 92-byte header prefix (an out-of-range slice is a
Rust panic), deserialize it (failure propagated with `.ok()?` as `fail`),
require the `Header` variant (any other variant hits
`panic!("Expected a header event")`) and run the record phase, accumulating
decoded events across buffers. -/
def parseBuffers (meta : MarketMetadata) (sig : Nat) :
    List (List Nat) → List PhoenixEvent → DecodeOutcome (List PhoenixEvent)
  | [], acc => .ok acc
  | ev :: rest, acc =>
    if ev.length < AUDIT_LOG_HEADER_LEN then .panic "range end index out of range"
    else
      match marketEventFromSlice (ev.take AUDIT_LOG_HEADER_LEN) with
      | none => .fail
      | some (.header hdr) =>
        match parseBuffer meta hdr sig ev.length (ev.drop AUDIT_LOG_HEADER_LEN) acc with
        | .ok acc2 => parseBuffers meta sig rest acc2
        | .fail => .fail
        | .panic msg => .panic msg
      | some _ => .panic "Expected a header event"

/-- `SDKClientCore::parse_wrapper_events`: unwrap the active market metadata
(a panic when the market is unregistered), then decode every transaction log
buffer, returning the accumulated event list. -/
def parseWrapperEvents (core : SDKClientCore) (sig : Nat)
    (events : List (List Nat)) : DecodeOutcome (List PhoenixEvent) :=
  match get_active_market_metadata core with
  | .ok meta => parseBuffers meta sig events []
  | .panic msg => .panic msg

/-- An abstract audit-log record of one of the five record kinds, used to build
well-formed byte logs for the decoder theorems. -/
inductive WrapperRecord where
  | fill (index maker_id order_sequence_number price_in_ticks
      base_lots_filled base_lots_remaining : Nat)
  | place (index order_sequence_number client_order_id price_in_ticks
      base_lots_placed : Nat)
  | reduce (index order_sequence_number price_in_ticks base_lots_removed
      base_lots_remaining : Nat)
  | evict (index maker_id order_sequence_number price_in_ticks
      base_lots_evicted : Nat)
  | fillSummary (index client_order_id total_base_lots_filled
      total_quote_lots_filled total_fee_in_quote_lots : Nat)
deriving DecidableEq

/-- The index field carried inside the payload of a record. -/
def recordIndex : WrapperRecord → Nat
  | .fill index _ _ _ _ _ => index
  | .place index _ _ _ _ => index
  | .reduce index _ _ _ _ => index
  | .evict index _ _ _ _ => index
  | .fillSummary index _ _ _ _ => index

/-- Byte serialization of one record, inverse to `marketEventFromSlice` on its
variant: discriminant byte followed by the fixed-width little-endian fields. -/
def encodeRecord : WrapperRecord → List Nat
  | .fill index maker_id seq price filled remaining =>
    2 :: (writeLE 2 index ++ writeLE 32 maker_id ++ writeLE 8 seq ++ writeLE 8 price ++
      writeLE 8 filled ++ writeLE 8 remaining)
  | .place index seq client_order_id price placed =>
    3 :: (writeLE 2 index ++ writeLE 8 seq ++ writeLE 16 client_order_id ++
      writeLE 8 price ++ writeLE 8 placed)
  | .reduce index seq price removed remaining =>
    4 :: (writeLE 2 index ++ writeLE 8 seq ++ writeLE 8 price ++ writeLE 8 removed ++
      writeLE 8 remaining)
  | .evict index maker_id seq price evicted =>
    5 :: (writeLE 1 index ++ writeLE 32 maker_id ++ writeLE 8 seq ++ writeLE 8 price ++
      writeLE 8 evicted)
  | .fillSummary index client_order_id tb tq tf =>
    6 :: (writeLE 2 index ++ writeLE 16 client_order_id ++ writeLE 8 tb ++
      writeLE 8 tq ++ writeLE 8 tf)

/-- Concatenated serialization of a record list (the record region of a log). -/
def encodeRecords : List WrapperRecord → List Nat
  | [] => []
  | r :: rs => encodeRecord r ++ encodeRecords rs

/-- Byte serialization of the 92-byte header prefix (discriminant byte 1,
the five header fields, and the three unnamed trailing payload bytes). -/
def encodeHeader (h : AuditLogHeader) : List Nat :=
  1 :: (writeLE 32 h.market ++ writeLE 8 h.market_sequence_number ++
    writeLE 8 h.slot ++ writeLE 8 h.timestamp ++ writeLE 32 h.signer ++ [0, 0, 0])

/-- Every field of a record fits its wire width. -/
def boundedRecord : WrapperRecord → Prop
  | .fill index maker_id seq price filled remaining =>
    index < 256 ^ 2 ∧ maker_id < 256 ^ 32 ∧ seq < 256 ^ 8 ∧ price < 256 ^ 8 ∧
      filled < 256 ^ 8 ∧ remaining < 256 ^ 8
  | .place index seq client_order_id price placed =>
    index < 256 ^ 2 ∧ seq < 256 ^ 8 ∧ client_order_id < 256 ^ 16 ∧
      price < 256 ^ 8 ∧ placed < 256 ^ 8
  | .reduce index seq price removed remaining =>
    index < 256 ^ 2 ∧ seq < 256 ^ 8 ∧ price < 256 ^ 8 ∧ removed < 256 ^ 8 ∧
      remaining < 256 ^ 8
  | .evict index maker_id seq price evicted =>
    index < 256 ^ 1 ∧ maker_id < 256 ^ 32 ∧ seq < 256 ^ 8 ∧ price < 256 ^ 8 ∧
      evicted < 256 ^ 8
  | .fillSummary index client_order_id tb tq tf =>
    index < 256 ^ 2 ∧ client_order_id < 256 ^ 16 ∧ tb < 256 ^ 8 ∧ tq < 256 ^ 8 ∧
      tf < 256 ^ 8

instance : (r : WrapperRecord) → Decidable (boundedRecord r)
  | .fill index maker_id seq price filled remaining =>
    inferInstanceAs (Decidable (index < 256 ^ 2 ∧ maker_id < 256 ^ 32 ∧
      seq < 256 ^ 8 ∧ price < 256 ^ 8 ∧ filled < 256 ^ 8 ∧ remaining < 256 ^ 8))
  | .place index seq client_order_id price placed =>
    inferInstanceAs (Decidable (index < 256 ^ 2 ∧ seq < 256 ^ 8 ∧
      client_order_id < 256 ^ 16 ∧ price < 256 ^ 8 ∧ placed < 256 ^ 8))
  | .reduce index seq price removed remaining =>
    inferInstanceAs (Decidable (index < 256 ^ 2 ∧ seq < 256 ^ 8 ∧
      price < 256 ^ 8 ∧ removed < 256 ^ 8 ∧ remaining < 256 ^ 8))
  | .evict index maker_id seq price evicted =>
    inferInstanceAs (Decidable (index < 256 ^ 1 ∧ maker_id < 256 ^ 32 ∧
      seq < 256 ^ 8 ∧ price < 256 ^ 8 ∧ evicted < 256 ^ 8))
  | .fillSummary index client_order_id tb tq tf =>
    inferInstanceAs (Decidable (index < 256 ^ 2 ∧ client_order_id < 256 ^ 16 ∧
      tb < 256 ^ 8 ∧ tq < 256 ^ 8 ∧ tf < 256 ^ 8))

/-- Every field of a header fits its wire width. -/
def boundedHeader (h : AuditLogHeader) : Prop :=
  h.market < 256 ^ 32 ∧ h.market_sequence_number < 256 ^ 8 ∧ h.slot < 256 ^ 8 ∧
    h.timestamp < 256 ^ 8 ∧ h.signer < 256 ^ 32

instance (h : AuditLogHeader) : Decidable (boundedHeader h) :=
  inferInstanceAs (Decidable (h.market < 256 ^ 32 ∧ h.market_sequence_number < 256 ^ 8 ∧
    h.slot < 256 ^ 8 ∧ h.timestamp < 256 ^ 8 ∧ h.signer < 256 ^ 32))

/-- The `PhoenixEvent` that `parse_wrapper_events` pushes for one decoded
record under header `hdr`: header fields copied into the envelope,
`event_index` copied from the index field of the payload, `FillSummary` lot
counts scaled by the lot sizes, every other kind emitted unchanged. -/
def recordEvent (meta : MarketMetadata) (hdr : AuditLogHeader) (sig : Nat) :
    WrapperRecord → PhoenixEvent
  | .fill index maker_id seq price filled remaining =>
    { market := hdr.market, sequence_number := hdr.market_sequence_number
      slot := hdr.slot, timestamp := hdr.timestamp, signature := sig
      signer := hdr.signer, event_index := index
      details := .Fill
        { order_sequence_number := seq, maker := maker_id, taker := hdr.signer
          price_in_ticks := price, base_lots_filled := filled
          base_lots_remaining := remaining
          side_filled := sideFromOrderSequenceNumber seq
          is_full_fill := remaining == 0 } }
  | .place index seq client_order_id price placed =>
    { market := hdr.market, sequence_number := hdr.market_sequence_number
      slot := hdr.slot, timestamp := hdr.timestamp, signature := sig
      signer := hdr.signer, event_index := index
      details := .Place
        { order_sequence_number := seq, client_order_id := client_order_id
          maker := hdr.signer, price_in_ticks := price
          base_lots_placed := placed } }
  | .reduce index seq price removed remaining =>
    { market := hdr.market, sequence_number := hdr.market_sequence_number
      slot := hdr.slot, timestamp := hdr.timestamp, signature := sig
      signer := hdr.signer, event_index := index
      details := .Reduce
        { order_sequence_number := seq, maker := hdr.signer
          price_in_ticks := price, base_lots_removed := removed
          base_lots_remaining := remaining
          is_full_cancel := remaining == 0 } }
  | .evict index maker_id seq price evicted =>
    { market := hdr.market, sequence_number := hdr.market_sequence_number
      slot := hdr.slot, timestamp := hdr.timestamp, signature := sig
      signer := hdr.signer, event_index := index
      details := .Evict
        { order_sequence_number := seq, maker := maker_id
          price_in_ticks := price, base_lots_evicted := evicted } }
  | .fillSummary index client_order_id tb tq tf =>
    { market := hdr.market, sequence_number := hdr.market_sequence_number
      slot := hdr.slot, timestamp := hdr.timestamp, signature := sig
      signer := hdr.signer, event_index := index
      details := .FillSummary
        { client_order_id := client_order_id
          total_base_filled := mulU64 tb meta.base_lot_size
          total_quote_filled_including_fees := mulU64 tq meta.quote_lot_size
          total_quote_fees := mulU64 tf meta.quote_lot_size } }

/-- The number of bytes the record loop consumes for a record whose
discriminant byte is `b` — the literal `size` of the matching arm of
`parse_wrapper_events` (the slice `event[offset..offset + size]` starts at the
discriminant byte, so the size includes it). -/
def recordSize (b : Nat) : Option Nat :=
  if b = 2 then some 67
  else if b = 3 then some 43
  else if b = 4 then some 35
  else if b = 5 then some 58
  else if b = 6 then some 43
  else none

/-- A byte list that splits completely into records: either empty (the cursor
is exactly at the buffer end), or it starts with a record discriminant whose
`recordSize` bytes fit and are followed by such a split remainder. -/
inductive ConsumesRecords : List Nat → Prop
  | nil : ConsumesRecords []
  | cons {b : Nat} {rest : List Nat} {size : Nat} :
      recordSize b = some size →
      size ≤ (b :: rest).length →
      ConsumesRecords ((b :: rest).drop size) →
      ConsumesRecords (b :: rest)

/-- The `MarketEvent` value that deserializing `encodeRecord r` yields. -/
def toMarketEvent : WrapperRecord → MarketEvent
  | .fill index maker_id seq price filled remaining =>
    .fill index maker_id seq price filled remaining
  | .place index seq client_order_id price placed =>
    .place index seq client_order_id price placed
  | .reduce index seq price removed remaining =>
    .reduce index seq price removed remaining
  | .evict index maker_id seq price evicted =>
    .evict index maker_id seq price evicted
  | .fillSummary index client_order_id tb tq tf =>
    .fillSummary index client_order_id tb tq tf

/-- Total byte length of one serialized record (the arm size of the decoder). -/
def recordLen : WrapperRecord → Nat
  | .fill _ _ _ _ _ _ => 67
  | .place _ _ _ _ _ => 43
  | .reduce _ _ _ _ _ => 35
  | .evict _ _ _ _ _ => 58
  | .fillSummary _ _ _ _ _ => 43

/-- Sample market metadata for concrete checks. -/
def metaX : MarketMetadata :=
  { base_mint := 10, quote_mint := 11, base_decimals := 9, quote_decimals := 6,
    base_multiplier := 1000000000, quote_multiplier := 1000000,
    quote_lot_size := 10, base_lot_size := 1000, tick_size := 100,
    num_base_lots_per_base_unit := 4, num_quote_lots_per_tick := 5 }

/-- Sample audit-log header for concrete checks. -/
def hdrX : AuditLogHeader :=
  { market := 77, market_sequence_number := 1, slot := 2, timestamp := 3, signer := 88 }

/-- Sample client core with `metaX` registered as the active market. -/
def coreX : SDKClientCore :=
  { markets := [(1, metaX)], active_market_key := 1, trader := 2 }

/-- A client core with no market registered. -/
def coreEmpty : SDKClientCore :=
  { markets := [], active_market_key := 0, trader := 0 }

/-- Metadata whose multipliers make the overflow of `order_to_quote_amount`
observable. -/
def metaOv : MarketMetadata :=
  { base_mint := 0, quote_mint := 0, base_decimals := 0, quote_decimals := 0,
    base_multiplier := 1, quote_multiplier := 1,
    quote_lot_size := 1, base_lot_size := 1, tick_size := 1,
    num_base_lots_per_base_unit := 4, num_quote_lots_per_tick := 1 }

/-- Client core with `metaOv` registered as the active market. -/
def coreOv : SDKClientCore :=
  { markets := [(1, metaOv)], active_market_key := 1, trader := 0 }

/-- A sample `Reduce` record (35 serialized bytes). -/
def recRed : WrapperRecord := .reduce 0 9 10 11 0

/-- Two sample records both carrying payload index `0`. -/
def recDupA : WrapperRecord := .reduce 0 1 2 3 4

/-- Second sample record with payload index `0`. -/
def recDupB : WrapperRecord := .reduce 0 5 6 7 0

/-- A sample `FillSummary` record with `total_base_lots_filled = 5`. -/
def recFS : WrapperRecord := .fillSummary 0 7 5 6 8

/-- A sample `Fill` record. -/
def recFil : WrapperRecord := .fill 1 9 4 3 2 1

@[simp]
theorem writeLE_length (n v : Nat) : (writeLE n v).length = n := by
  induction n generalizing v with
  | zero => simp [writeLE]
  | succ n ih => simp [writeLE, ih]

theorem readLE_writeLE (n v : Nat) : readLE (writeLE n v) = v % 256 ^ n := by
  induction n generalizing v with
  | zero => simp [writeLE, readLE, Nat.mod_one]
  | succ n ih =>
    rw [writeLE, readLE, ih, pow_succ']
    exact (Nat.mod_mul).symm

@[simp]
theorem take_writeLE_append (n v : Nat) (ys : List Nat) :
    (writeLE n v ++ ys).take n = writeLE n v :=
  List.take_left' (writeLE_length n v)

@[simp]
theorem drop_writeLE_append (n v : Nat) (ys : List Nat) :
    (writeLE n v ++ ys).drop n = ys :=
  List.drop_left' (writeLE_length n v)

@[simp]
theorem take_writeLE (n v : Nat) : (writeLE n v).take n = writeLE n v := by
  simp [writeLE_length]

theorem encodeRecord_length (r : WrapperRecord) :
    (encodeRecord r).length = recordLen r := by
  cases r <;> simp [encodeRecord, recordLen]

theorem marketEventFromSlice_encodeHeader (h : AuditLogHeader)
    (hb : boundedHeader h) :
    marketEventFromSlice (encodeHeader h) = some (.header h) := by
  obtain ⟨h1, h2, h3, h4, h5⟩ := hb
  norm_num at h1 h2 h3 h4 h5
  simp [marketEventFromSlice, encodeHeader, readLE_writeLE,
    Nat.mod_eq_of_lt, h1, h2, h3, h4, h5]

theorem marketEventFromSlice_encodeRecord (r : WrapperRecord)
    (hb : boundedRecord r) :
    marketEventFromSlice (encodeRecord r) = some (toMarketEvent r) := by
  cases r with
  | fill index maker_id seq price filled remaining =>
    obtain ⟨h1, h2, h3, h4, h5, h6⟩ := hb
    norm_num at h1 h2 h3 h4 h5 h6
    simp [marketEventFromSlice, encodeRecord, toMarketEvent, readLE_writeLE,
      Nat.mod_eq_of_lt, h1, h2, h3, h4, h5, h6]
  | place index seq client_order_id price placed =>
    obtain ⟨h1, h2, h3, h4, h5⟩ := hb
    norm_num at h1 h2 h3 h4 h5
    simp [marketEventFromSlice, encodeRecord, toMarketEvent, readLE_writeLE,
      Nat.mod_eq_of_lt, h1, h2, h3, h4, h5]
  | reduce index seq price removed remaining =>
    obtain ⟨h1, h2, h3, h4, h5⟩ := hb
    norm_num at h1 h2 h3 h4 h5
    simp [marketEventFromSlice, encodeRecord, toMarketEvent, readLE_writeLE,
      Nat.mod_eq_of_lt, h1, h2, h3, h4, h5]
  | evict index maker_id seq price evicted =>
    obtain ⟨h1, h2, h3, h4, h5⟩ := hb
    norm_num at h1 h2 h3 h4 h5
    simp [marketEventFromSlice, encodeRecord, toMarketEvent, readLE_writeLE,
      Nat.mod_eq_of_lt, h1, h2, h3, h4, h5]
  | fillSummary index client_order_id tb tq tf =>
    obtain ⟨h1, h2, h3, h4, h5⟩ := hb
    norm_num at h1 h2 h3 h4 h5
    simp [marketEventFromSlice, encodeRecord, toMarketEvent, readLE_writeLE,
      Nat.mod_eq_of_lt, h1, h2, h3, h4, h5]

theorem parseBuffer_step (meta : MarketMetadata) (hdr : AuditLogHeader)
    (sig fuel : Nat) (r : WrapperRecord) (tail : List Nat)
    (acc : List PhoenixEvent) (hb : boundedRecord r) :
    parseBuffer meta hdr sig (fuel + 1) (encodeRecord r ++ tail) acc
      = parseBuffer meta hdr sig fuel tail (acc ++ [recordEvent meta hdr sig r]) := by
  have hparse := marketEventFromSlice_encodeRecord r hb
  have hlen := encodeRecord_length r
  cases r with
  | fill i m s p f rm =>
    obtain ⟨payload, hE⟩ : ∃ pl, encodeRecord (WrapperRecord.fill i m s p f rm) = 2 :: pl :=
      ⟨_, rfl⟩
    rw [hE] at hparse hlen ⊢
    have hplen : payload.length = 66 := by simpa [recordLen] using hlen
    have htake : (2 :: (payload ++ tail)).take 67 = 2 :: payload := by
      show (2 :: (payload ++ tail)).take (66 + 1) = 2 :: payload
      rw [List.take_succ_cons, List.take_left' hplen]
    have hdrop : (2 :: (payload ++ tail)).drop 67 = tail := by
      show (2 :: (payload ++ tail)).drop (66 + 1) = tail
      rw [List.drop_succ_cons, List.drop_left' hplen]
    rw [List.cons_append]
    simp only [parseBuffer]
    rw [htake, hdrop, hparse]
    have hguard : ¬ (payload.length + tail.length + 1 < 67) := by omega
    simp [hguard, toMarketEvent, recordEvent]
  | place i s c p pl =>
    obtain ⟨payload, hE⟩ : ∃ q, encodeRecord (WrapperRecord.place i s c p pl) = 3 :: q :=
      ⟨_, rfl⟩
    rw [hE] at hparse hlen ⊢
    have hplen : payload.length = 42 := by simpa [recordLen] using hlen
    have htake : (3 :: (payload ++ tail)).take 43 = 3 :: payload := by
      show (3 :: (payload ++ tail)).take (42 + 1) = 3 :: payload
      rw [List.take_succ_cons, List.take_left' hplen]
    have hdrop : (3 :: (payload ++ tail)).drop 43 = tail := by
      show (3 :: (payload ++ tail)).drop (42 + 1) = tail
      rw [List.drop_succ_cons, List.drop_left' hplen]
    rw [List.cons_append]
    simp only [parseBuffer]
    rw [htake, hdrop, hparse]
    have hguard : ¬ (payload.length + tail.length + 1 < 43) := by omega
    simp [hguard, toMarketEvent, recordEvent]
  | reduce i s p rmv rm =>
    obtain ⟨payload, hE⟩ : ∃ q, encodeRecord (WrapperRecord.reduce i s p rmv rm) = 4 :: q :=
      ⟨_, rfl⟩
    rw [hE] at hparse hlen ⊢
    have hplen : payload.length = 34 := by simpa [recordLen] using hlen
    have htake : (4 :: (payload ++ tail)).take 35 = 4 :: payload := by
      show (4 :: (payload ++ tail)).take (34 + 1) = 4 :: payload
      rw [List.take_succ_cons, List.take_left' hplen]
    have hdrop : (4 :: (payload ++ tail)).drop 35 = tail := by
      show (4 :: (payload ++ tail)).drop (34 + 1) = tail
      rw [List.drop_succ_cons, List.drop_left' hplen]
    rw [List.cons_append]
    simp only [parseBuffer]
    rw [htake, hdrop, hparse]
    have hguard : ¬ (payload.length + tail.length + 1 < 35) := by omega
    simp [hguard, toMarketEvent, recordEvent]
  | evict i m s p ev =>
    obtain ⟨payload, hE⟩ : ∃ q, encodeRecord (WrapperRecord.evict i m s p ev) = 5 :: q :=
      ⟨_, rfl⟩
    rw [hE] at hparse hlen ⊢
    have hplen : payload.length = 57 := by simpa [recordLen] using hlen
    have htake : (5 :: (payload ++ tail)).take 58 = 5 :: payload := by
      show (5 :: (payload ++ tail)).take (57 + 1) = 5 :: payload
      rw [List.take_succ_cons, List.take_left' hplen]
    have hdrop : (5 :: (payload ++ tail)).drop 58 = tail := by
      show (5 :: (payload ++ tail)).drop (57 + 1) = tail
      rw [List.drop_succ_cons, List.drop_left' hplen]
    rw [List.cons_append]
    simp only [parseBuffer]
    rw [htake, hdrop, hparse]
    have hguard : ¬ (payload.length + tail.length + 1 < 58) := by omega
    simp [hguard, toMarketEvent, recordEvent]
  | fillSummary i c tb tq tf =>
    obtain ⟨payload, hE⟩ : ∃ q, encodeRecord (WrapperRecord.fillSummary i c tb tq tf) = 6 :: q :=
      ⟨_, rfl⟩
    rw [hE] at hparse hlen ⊢
    have hplen : payload.length = 42 := by simpa [recordLen] using hlen
    have htake : (6 :: (payload ++ tail)).take 43 = 6 :: payload := by
      show (6 :: (payload ++ tail)).take (42 + 1) = 6 :: payload
      rw [List.take_succ_cons, List.take_left' hplen]
    have hdrop : (6 :: (payload ++ tail)).drop 43 = tail := by
      show (6 :: (payload ++ tail)).drop (42 + 1) = tail
      rw [List.drop_succ_cons, List.drop_left' hplen]
    rw [List.cons_append]
    simp only [parseBuffer]
    rw [htake, hdrop, hparse]
    have hguard : ¬ (payload.length + tail.length + 1 < 43) := by omega
    simp [hguard, toMarketEvent, recordEvent]

theorem encodeRecords_length_ge (rs : List WrapperRecord) :
    rs.length ≤ (encodeRecords rs).length := by
  induction rs with
  | nil => simp [encodeRecords]
  | cons r rs ih =>
    have hr : (encodeRecord r).length = recordLen r := encodeRecord_length r
    have hpos : 1 ≤ recordLen r := by cases r <;> simp [recordLen]
    simp only [encodeRecords, List.length_append, List.length_cons, hr]
    omega

theorem encodeHeader_length (h : AuditLogHeader) : (encodeHeader h).length = 92 := by
  simp [encodeHeader]

theorem parseBuffer_encodeRecords (meta : MarketMetadata) (hdr : AuditLogHeader)
    (sig : Nat) (rs : List WrapperRecord) (acc : List PhoenixEvent) (fuel : Nat)
    (hfuel : rs.length ≤ fuel) (hb : ∀ r ∈ rs, boundedRecord r) :
    parseBuffer meta hdr sig fuel (encodeRecords rs) acc
      = .ok (acc ++ rs.map (recordEvent meta hdr sig)) := by
  induction rs generalizing acc fuel with
  | nil => simp [encodeRecords, parseBuffer]
  | cons r rs ih =>
    obtain ⟨f, rfl⟩ : ∃ f, fuel = f + 1 := by
      refine ⟨fuel - 1, ?_⟩
      simp at hfuel
      omega
    rw [show encodeRecords (r :: rs) = encodeRecord r ++ encodeRecords rs from rfl]
    rw [parseBuffer_step meta hdr sig f r (encodeRecords rs) acc (hb r (by simp))]
    rw [ih (acc ++ [recordEvent meta hdr sig r]) f (by simp at hfuel; omega)
      (fun r hr => hb r (by simp [hr]))]
    simp

theorem parseWrapperEvents_encodeLog (core : SDKClientCore) (meta : MarketMetadata)
    (hdr : AuditLogHeader) (sig : Nat) (rs : List WrapperRecord)
    (hm : core.markets.lookup core.active_market_key = some meta)
    (hh : boundedHeader hdr) (hb : ∀ r ∈ rs, boundedRecord r) :
    parseWrapperEvents core sig [encodeHeader hdr ++ encodeRecords rs]
      = .ok (rs.map (recordEvent meta hdr sig)) := by
  have hhl : (encodeHeader hdr).length = 92 := encodeHeader_length hdr
  have htake : (encodeHeader hdr ++ encodeRecords rs).take 92 = encodeHeader hdr :=
    List.take_left' hhl
  have hdrop : (encodeHeader hdr ++ encodeRecords rs).drop 92 = encodeRecords rs :=
    List.drop_left' hhl
  have hlen : (encodeHeader hdr ++ encodeRecords rs).length
      = 92 + (encodeRecords rs).length := by
    simp [hhl]
  simp only [parseWrapperEvents, get_active_market_metadata, hm]
  simp only [parseBuffers, AUDIT_LOG_HEADER_LEN, htake, hdrop,
    marketEventFromSlice_encodeHeader hdr hh]
  have hguard : ¬ ((encodeHeader hdr ++ encodeRecords rs).length < 92) := by
    omega
  rw [if_neg hguard]
  rw [parseBuffer_encodeRecords meta hdr sig rs [] _
    (by have := encodeRecords_length_ge rs; omega) hb]
  simp [parseBuffers]

theorem parseBuffer_ok_consumes (meta : MarketMetadata) (hdr : AuditLogHeader)
    (sig : Nat) :
    ∀ (fuel : Nat) (rem : List Nat) (acc l : List PhoenixEvent),
      parseBuffer meta hdr sig fuel rem acc = .ok l → ConsumesRecords rem := by
  intro fuel
  induction fuel with
  | zero =>
    intro rem acc l h
    cases rem with
    | nil => exact .nil
    | cons b rest => simp [parseBuffer] at h
  | succ fuel ih =>
    intro rem acc l h
    cases rem with
    | nil => exact .nil
    | cons b rest =>
      simp only [parseBuffer] at h
      by_cases hb6 : b ≤ 6
      · rw [if_pos hb6] at h
        by_cases hb2 : b = 2
        · subst hb2
          rw [if_pos rfl] at h
          split at h
          · exact absurd h (by simp)
          · next hg =>
              generalize hme : marketEventFromSlice ((2 :: rest).take 67) = me at h
              cases me with
              | none => simp at h
              | some ev =>
                cases ev with
                | fill i m s p f rm =>
                  refine @ConsumesRecords.cons 2 rest 67
                    (by simp [recordSize])
                    (by simp only [List.length_cons] at hg ⊢; omega)
                    (ih _ _ _ h)
                | uninitialized => simp at h
                | header hh => simp at h
                | place a b c d e => simp at h
                | reduce a b c d e => simp at h
                | evict a b c d e => simp at h
                | fillSummary a b c d e => simp at h
        · rw [if_neg hb2] at h
          by_cases hb4 : b = 4
          · subst hb4
            rw [if_pos rfl] at h
            split at h
            · exact absurd h (by simp)
            · next hg =>
                generalize hme : marketEventFromSlice ((4 :: rest).take 35) = me at h
                cases me with
                | none => simp at h
                | some ev =>
                  cases ev with
                  | reduce i s p rmv rm =>
                    refine @ConsumesRecords.cons 4 rest 35
                      (by simp [recordSize])
                      (by simp only [List.length_cons] at hg ⊢; omega)
                      (ih _ _ _ h)
                  | uninitialized => simp at h
                  | header hh => simp at h
                  | fill a b c d e f => simp at h
                  | place a b c d e => simp at h
                  | evict a b c d e => simp at h
                  | fillSummary a b c d e => simp at h
          · rw [if_neg hb4] at h
            by_cases hb3 : b = 3
            · subst hb3
              rw [if_pos rfl] at h
              split at h
              · exact absurd h (by simp)
              · next hg =>
                  generalize hme : marketEventFromSlice ((3 :: rest).take 43) = me at h
                  cases me with
                  | none => simp at h
                  | some ev =>
                    cases ev with
                    | place i s c p pl =>
                      refine @ConsumesRecords.cons 3 rest 43
                        (by simp [recordSize])
                        (by simp only [List.length_cons] at hg ⊢; omega)
                        (ih _ _ _ h)
                    | uninitialized => simp at h
                    | header hh => simp at h
                    | fill a b c d e f => simp at h
                    | reduce a b c d e => simp at h
                    | evict a b c d e => simp at h
                    | fillSummary a b c d e => simp at h
            · rw [if_neg hb3] at h
              by_cases hb5 : b = 5
              · subst hb5
                rw [if_pos rfl] at h
                split at h
                · exact absurd h (by simp)
                · next hg =>
                    generalize hme : marketEventFromSlice ((5 :: rest).take 58) = me at h
                    cases me with
                    | none => simp at h
                    | some ev =>
                      cases ev with
                      | evict i m s p e =>
                        refine @ConsumesRecords.cons 5 rest 58
                          (by simp [recordSize])
                          (by simp only [List.length_cons] at hg ⊢; omega)
                          (ih _ _ _ h)
                      | uninitialized => simp at h
                      | header hh => simp at h
                      | fill a b c d e f => simp at h
                      | place a b c d e => simp at h
                      | reduce a b c d e => simp at h
                      | fillSummary a b c d e => simp at h
              · rw [if_neg hb5] at h
                by_cases hb6e : b = 6
                · subst hb6e
                  rw [if_pos rfl] at h
                  split at h
                  · exact absurd h (by simp)
                  · next hg =>
                      generalize hme : marketEventFromSlice ((6 :: rest).take 43) = me at h
                      cases me with
                      | none => simp at h
                      | some ev =>
                        cases ev with
                        | fillSummary i c tb tq tf =>
                          refine @ConsumesRecords.cons 6 rest 43
                            (by simp [recordSize])
                            (by simp only [List.length_cons] at hg ⊢; omega)
                            (ih _ _ _ h)
                        | uninitialized => simp at h
                        | header hh => simp at h
                        | fill a b c d e f => simp at h
                        | place a b c d e => simp at h
                        | reduce a b c d e => simp at h
                        | evict a b c d e => simp at h
                · rw [if_neg hb6e] at h
                  exact absurd h (by simp)
      · rw [if_neg hb6] at h
        exact absurd h (by simp)

theorem foldl_pollStep_of_fst_ne_zero {α : Type} (fetch : Nat → List α)
    (l : List (Nat × Nat)) (acc : Option Nat × List (List α))
    (h : ∀ p ∈ l, p.1 ≠ 0) :
    l.foldl (fun acc p => ((if p.1 = 0 then some p.2 else acc.1),
        acc.2 ++ [fetch p.2])) acc
      = (acc.1, acc.2 ++ l.map (fun p => fetch p.2)) := by
  induction l generalizing acc with
  | nil => simp
  | cons q l ih =>
    simp only [List.foldl_cons]
    rw [if_neg (h q (by simp))]
    rw [ih _ (fun p hp => h p (by simp [hp]))]
    simp

/-- C6: in one poll cycle over signatures fetched newest-first, the poller
processes them in reverse (oldest-first) order, forwards the decoded events of
each signature in that chronological order, and ends with the cursor equal to
the newest signature of the batch (the head of the newest-first list); in
particular, fetching `[s3, s2, s1]` forwards the events of `s1`, `s2`, `s3` in
that order and leaves the cursor at `s3`. -/
theorem poll_cycle_order_and_cursor {α : Type} (s : Nat) (rest : List Nat)
    (fetch : Nat → List α) (u : Option Nat) :
    pollCycle (s :: rest) fetch u
      = (some s, ((s :: rest).reverse).map (fun x => fetch x)) := by
  unfold pollCycle
  rw [show (s :: rest).enum = (0, s) :: rest.enumFrom 1 from List.enum_cons ..]
  rw [List.reverse_cons, List.foldl_append]
  rw [foldl_pollStep_of_fst_ne_zero fetch (rest.enumFrom 1).reverse (u, [])
    (by
      intro p hp
      rw [List.mem_reverse] at hp
      have := List.le_fst_of_mem_enumFrom hp
      omega)]
  simp only [List.foldl_cons, List.foldl_nil, if_pos rfl]
  have hmap : ((rest.enumFrom 1).reverse).map (fun p => fetch p.2)
      = (rest.reverse).map (fun x => fetch x) := by
    rw [List.map_reverse, List.map_reverse]
    congr 1
    have hsnd := List.enumFrom_map_snd 1 rest
    calc (rest.enumFrom 1).map (fun p => fetch p.2)
        = ((rest.enumFrom 1).map Prod.snd).map (fun x => fetch x) := by
          rw [List.map_map]
          rfl
      _ = rest.map (fun x => fetch x) := by rw [hsnd]
  rw [hmap]
  simp

/-- C10: `change_active_market` succeeds exactly when the requested market
address is registered; on success it sets `active_market_key` to that address
leaving the registry and trader untouched, and on failure it returns the typed
error string `"Market not found"` leaving the whole state unchanged. -/
theorem change_active_market_spec (core : SDKClientCore) (m : Nat) :
    ((core.markets.lookup m).isSome ↔ (change_active_market core m).1 = none)
    ∧ (∀ meta, core.markets.lookup m = some meta →
        change_active_market core m = (none, { core with active_market_key := m }))
    ∧ (core.markets.lookup m = none →
        change_active_market core m = (some "Market not found", core)) := by
  unfold change_active_market
  rcases hq : core.markets.lookup m with _ | meta <;> simp [hq]

/-- Witness for C10 at a concrete core: changing to the registered market `1`
succeeds and updates the key; changing to the unregistered market `2` returns
the error and leaves the core unchanged. -/
theorem change_active_market_spec_witness :
    change_active_market coreX 1 = (none, { coreX with active_market_key := 1 })
    ∧ change_active_market coreX 2 = (some "Market not found", coreX) :=
  ⟨(change_active_market_spec coreX 1).2.1 metaX rfl,
   (change_active_market_spec coreX 2).2.2 rfl⟩

/-- C7: with the optional parameters unspecified, `get_ioc_generic_ix`
defaults the self-trade policy to `CancelProvide` while
`get_limit_order_generic_ix` defaults it to `DecrementTake`; both default the
client order id to `0` and `use_only_deposited_funds` to `false`, and both
truncate the price to ticks by integer division. -/
theorem order_defaults_ioc_vs_limit (core : SDKClientCore) (meta : MarketMetadata)
    (price : Nat) (side : Side) (num_base_lots size : Nat)
    (hm : core.markets.lookup core.active_market_key = some meta)
    (ht : meta.tick_size ≠ 0) :
    get_ioc_generic_ix core price side num_base_lots none none none none
      = .ok { side := side, price_in_ticks := price / meta.tick_size,
              num_base_lots := num_base_lots,
              self_trade_behavior := .CancelProvide, match_limit := none,
              client_order_id := 0, use_only_deposited_funds := false }
    ∧ get_limit_order_generic_ix core price side size none none none none
      = .ok { side := side, price_in_ticks := price / meta.tick_size, size := size,
              self_trade_behavior := .DecrementTake, match_limit := none,
              client_order_id := 0, use_only_deposited_funds := false } := by
  constructor
  · simp only [get_ioc_generic_ix, hm]
    rw [if_neg ht]
    rfl
  · simp only [get_limit_order_generic_ix, hm]
    rw [if_neg ht]
    rfl

/-- Witness for C7 at a concrete core with tick size 100. -/
theorem order_defaults_ioc_vs_limit_witness :
    get_ioc_generic_ix coreX 250 .Bid 9 none none none none
      = .ok { side := .Bid, price_in_ticks := 2, num_base_lots := 9,
              self_trade_behavior := .CancelProvide, match_limit := none,
              client_order_id := 0, use_only_deposited_funds := false }
    ∧ get_limit_order_generic_ix coreX 250 .Ask 7 none none none none
      = .ok { side := .Ask, price_in_ticks := 2, size := 7,
              self_trade_behavior := .DecrementTake, match_limit := none,
              client_order_id := 0, use_only_deposited_funds := false } :=
  ⟨(order_defaults_ioc_vs_limit coreX metaX 250 .Bid 9 7 rfl (by decide)).1,
   (order_defaults_ioc_vs_limit coreX metaX 250 .Ask 9 7 rfl (by decide)).2⟩

/-- C2 counterexample: with no market registered for the active key, the unit
conversions do not return a typed market-not-found error — they panic (the
source unwraps the registry lookup), refuting the claim at this input. -/
theorem conversions_panic_when_market_missing_example :
    base_amount_to_base_lots coreEmpty 100 = .panic "called unwrap on a None value"
    ∧ order_to_quote_amount coreEmpty 1 1 = .panic "called unwrap on a None value"
    ∧ get_active_market_metadata coreEmpty = .panic "called unwrap on a None value" :=
  ⟨rfl, rfl, rfl⟩

/-- C2 (amended): whenever no metadata is registered for the active market
key, every unit conversion (here the integer-input ones, together with the
metadata lookup that the float-input conversions run first) panics via
`unwrap` instead of returning a typed market-not-found error. -/
theorem conversions_panic_when_market_missing (core : SDKClientCore)
    (a b : Nat) (h : core.markets.lookup core.active_market_key = none) :
    get_active_market_metadata core = .panic "called unwrap on a None value"
    ∧ base_amount_to_base_lots core a = .panic "called unwrap on a None value"
    ∧ base_lots_to_base_amount core a = .panic "called unwrap on a None value"
    ∧ quote_amount_to_quote_lots core a = .panic "called unwrap on a None value"
    ∧ quote_lots_to_quote_amount core a = .panic "called unwrap on a None value"
    ∧ order_to_quote_amount core a b = .panic "called unwrap on a None value" := by
  simp [get_active_market_metadata, base_amount_to_base_lots,
    base_lots_to_base_amount, quote_amount_to_quote_lots,
    quote_lots_to_quote_amount, order_to_quote_amount, h]

/-- Witness for the amended C2 at the empty registry. -/
theorem conversions_panic_when_market_missing_witness :
    get_active_market_metadata coreEmpty = .panic "called unwrap on a None value"
    ∧ base_amount_to_base_lots coreEmpty 3 = .panic "called unwrap on a None value"
    ∧ base_lots_to_base_amount coreEmpty 3 = .panic "called unwrap on a None value"
    ∧ quote_amount_to_quote_lots coreEmpty 3 = .panic "called unwrap on a None value"
    ∧ quote_lots_to_quote_amount coreEmpty 3 = .panic "called unwrap on a None value"
    ∧ order_to_quote_amount coreEmpty 3 5 = .panic "called unwrap on a None value" :=
  conversions_panic_when_market_missing coreEmpty 3 5 rfl

/-- C4 counterexample: `order_to_quote_amount` computes in plain `u64`
arithmetic, so at `base_lots = 2 ^ 32`, `price_in_ticks = 2 ^ 33` the product
wraps to `0`, while the u128-intermediate evaluation the claim describes
yields `2 ^ 63`. -/
theorem order_to_quote_amount_wraps_example :
    order_to_quote_amount coreOv (2 ^ 32) (2 ^ 33) = .ok 0
    ∧ order_to_quote_amount_spec_u128 metaOv (2 ^ 32) (2 ^ 33) = 2 ^ 63
    ∧ (0 : Nat) ≠ 2 ^ 63 :=
  ⟨by decide, by decide, by decide⟩

/-- C4 (amended): `order_to_quote_amount` evaluates
`base_lots * price_in_ticks * num_quote_lots_per_tick * quote_lot_size
  / num_base_lots_per_base_unit` left-to-right in `u64` with no widening; when
every partial product stays below `2 ^ 64` the result is the exact integer
formula (otherwise the products wrap modulo `2 ^ 64`). -/
theorem order_to_quote_amount_no_overflow_exact (core : SDKClientCore)
    (meta : MarketMetadata) (b p : Nat)
    (hm : core.markets.lookup core.active_market_key = some meta)
    (hnb : meta.num_base_lots_per_base_unit ≠ 0)
    (h1 : b * p < U64_MOD)
    (h2 : b * p * meta.num_quote_lots_per_tick < U64_MOD)
    (h3 : b * p * meta.num_quote_lots_per_tick * meta.quote_lot_size < U64_MOD) :
    order_to_quote_amount core b p
      = .ok (b * p * meta.num_quote_lots_per_tick * meta.quote_lot_size
          / meta.num_base_lots_per_base_unit) := by
  simp only [order_to_quote_amount, hm, mulU64]
  rw [if_neg hnb]
  rw [Nat.mod_eq_of_lt h1, Nat.mod_eq_of_lt h2, Nat.mod_eq_of_lt h3]

/-- Witness for the amended C4 at small inputs: `6 * 10 * 1 * 1 / 4 = 15`. -/
theorem order_to_quote_amount_no_overflow_exact_witness :
    order_to_quote_amount coreOv 6 10 = .ok 15 :=
  order_to_quote_amount_no_overflow_exact coreOv metaOv 6 10 rfl
    (by decide) (by decide) (by decide) (by decide)

/-- C5: for a registered market with nonzero `base_lot_size`, converting a
`u64` amount to lots and back yields `a - a % base_lot_size`; in particular it
is the identity exactly on amounts aligned to `base_lot_size`, and on
unaligned amounts the remainder is lost by truncation (the round trip is
strictly smaller than `a`). -/
theorem base_amount_roundtrip (core : SDKClientCore) (meta : MarketMetadata)
    (a : Nat) (hm : core.markets.lookup core.active_market_key = some meta)
    (hls : meta.base_lot_size ≠ 0) (ha : a < U64_MOD) :
    (base_amount_to_base_lots core a).bind (base_lots_to_base_amount core)
        = .ok (a - a % meta.base_lot_size)
    ∧ (meta.base_lot_size ∣ a →
        (base_amount_to_base_lots core a).bind (base_lots_to_base_amount core)
          = .ok a)
    ∧ (¬ meta.base_lot_size ∣ a →
        (base_amount_to_base_lots core a).bind (base_lots_to_base_amount core)
          ≠ .ok a) := by
  have hmain : (base_amount_to_base_lots core a).bind (base_lots_to_base_amount core)
      = .ok (a - a % meta.base_lot_size) := by
    simp only [base_amount_to_base_lots, hm]
    rw [if_neg hls]
    simp only [RustResult.bind, base_lots_to_base_amount, hm, mulU64]
    have hdm : a / meta.base_lot_size * meta.base_lot_size + a % meta.base_lot_size = a :=
      Nat.div_add_mod' a meta.base_lot_size
    have hle : a / meta.base_lot_size * meta.base_lot_size ≤ a :=
      Nat.div_mul_le_self a _
    rw [Nat.mod_eq_of_lt (lt_of_le_of_lt hle ha)]
    congr 1
    omega
  have hpos : 0 < meta.base_lot_size := Nat.pos_of_ne_zero hls
  refine ⟨hmain, ?_, ?_⟩
  · intro hdvd
    have h0 : a % meta.base_lot_size = 0 := (Nat.mod_eq_zero_of_dvd hdvd)
    rw [hmain, h0]
    simp
  · intro hndvd hcontra
    rw [hmain] at hcontra
    have hinj : a - a % meta.base_lot_size = a := by
      injection hcontra
    have hmle : a % meta.base_lot_size ≤ a := Nat.mod_le a _
    have h0 : a % meta.base_lot_size = 0 := by omega
    exact hndvd (Nat.dvd_of_mod_eq_zero h0)

/-- Witness for C5: with lot size 1000, the aligned amount 5000 round-trips to
itself. -/
theorem base_amount_roundtrip_witness :
    (base_amount_to_base_lots coreX 5000).bind (base_lots_to_base_amount coreX)
      = .ok 5000 :=
  (base_amount_roundtrip coreX metaX 5000 rfl (by decide) (by decide)).2.1
    (by decide)

/-- C1 counterexample: on two malformed logs — a valid header followed by a
record discriminant byte `0`, and a valid header followed by a `Fill`
discriminant with no payload — `parse_wrapper_events` terminates the process
(`panic!("Unexpected Event!")` and an out-of-range slice) instead of
returning a typed failure. -/
theorem parse_wrapper_events_panics_on_malformed_input :
    parseWrapperEvents coreX 9 [encodeHeader hdrX ++ [0]]
        = .panic "Unexpected Event!"
    ∧ parseWrapperEvents coreX 9 [encodeHeader hdrX ++ [2]]
        = .panic "range end index out of range" :=
  ⟨by decide, by decide⟩

/-- C1 (amended): on a malformed log the decoder never returns a partial
event list, but it does not always return a typed failure either: a record
discriminant of 7 or more, like a failed borsh deserialization, is propagated
as the typed failure `fail`; a record discriminant of 0 or 1 panics
(`"Unexpected Event!"`); a record whose indicated slice exceeds the remaining
bytes panics with the out-of-range slice; and a buffer shorter than the
92-byte header prefix panics in the header slice. -/
theorem parse_wrapper_events_malformed_step_behavior (meta : MarketMetadata)
    (hdr : AuditLogHeader) (sig fuel b : Nat) (rest : List Nat)
    (acc : List PhoenixEvent) :
    (7 ≤ b → parseBuffer meta hdr sig (fuel + 1) (b :: rest) acc = .fail)
    ∧ ((b = 0 ∨ b = 1) →
        parseBuffer meta hdr sig (fuel + 1) (b :: rest) acc
          = .panic "Unexpected Event!")
    ∧ (∀ size, recordSize b = some size → (b :: rest).length < size →
        parseBuffer meta hdr sig (fuel + 1) (b :: rest) acc
          = .panic "range end index out of range")
    ∧ (∀ (ev : List Nat) (evs : List (List Nat)) (acc2 : List PhoenixEvent),
        ev.length < 92 →
        parseBuffers meta sig (ev :: evs) acc2
          = .panic "range end index out of range") := by
  refine ⟨?_, ?_, ?_, ?_⟩
  · intro h7
    have hn : ¬ b ≤ 6 := by omega
    simp only [parseBuffer]
    rw [if_neg hn]
  · rintro (rfl | rfl) <;> simp [parseBuffer]
  · intro size hsize hlen
    unfold recordSize at hsize
    split_ifs at hsize with h2 h3 h4 h5 h6
    · cases hsize
      subst h2
      simp only [List.length_cons] at hlen
      simp [parseBuffer, hlen]
    · cases hsize
      subst h3
      simp only [List.length_cons] at hlen
      simp [parseBuffer, hlen]
    · cases hsize
      subst h4
      simp only [List.length_cons] at hlen
      simp [parseBuffer, hlen]
    · cases hsize
      subst h5
      simp only [List.length_cons] at hlen
      simp [parseBuffer, hlen]
    · cases hsize
      subst h6
      simp only [List.length_cons] at hlen
      simp [parseBuffer, hlen]
  · intro ev evs acc2 hlen
    simp only [parseBuffers, AUDIT_LOG_HEADER_LEN]
    rw [if_pos hlen]

/-- Witness for the amended C1: the four malformed shapes at concrete inputs. -/
theorem parse_wrapper_events_malformed_step_behavior_witness :
    parseBuffer metaX hdrX 9 1 [9] [] = .fail
    ∧ parseBuffer metaX hdrX 9 1 [0] [] = .panic "Unexpected Event!"
    ∧ parseBuffer metaX hdrX 9 1 [2] [] = .panic "range end index out of range"
    ∧ parseBuffers metaX 9 [[1, 2, 3]] [] = .panic "range end index out of range" :=
  ⟨(parse_wrapper_events_malformed_step_behavior metaX hdrX 9 0 9 [] []).1
      (by decide),
   (parse_wrapper_events_malformed_step_behavior metaX hdrX 9 0 0 [] []).2.1
      (Or.inl rfl),
   (parse_wrapper_events_malformed_step_behavior metaX hdrX 9 0 2 [] []).2.2.1
      67 (by decide) (by decide),
   (parse_wrapper_events_malformed_step_behavior metaX hdrX 9 0 2 [] []).2.2.2
      [1, 2, 3] [] [] (by decide)⟩

set_option maxRecDepth 8000 in
/-- C3 counterexample: a log of a 92-byte header plus one `Reduce` record
decodes successfully while occupying `92 + 35` bytes, so the `Reduce` record
consumed exactly 35 bytes including its discriminant — had the decoder
consumed `1 + 35` bytes per `Reduce` record as the claim states, this
127-byte log could not land exactly on the buffer end. -/
theorem record_stride_includes_discriminant_example :
    (encodeHeader hdrX ++ encodeRecords [recRed]).length = 92 + 35
    ∧ parseWrapperEvents coreX 7 [encodeHeader hdrX ++ encodeRecords [recRed]]
        = .ok [recordEvent metaX hdrX 7 recRed]
    ∧ 92 + 35 ≠ 92 + (1 + 35) :=
  ⟨by decide, by decide, by decide⟩

/-- C3 (amended): each successfully decoded record advances the cursor by
exactly the per-kind arm size — Fill 67, Reduce 35, Place 43, Evict 58,
FillSummary 43 bytes — where the size counts the discriminant byte (the slice
starts at it), not `1 +` the listed size; and a successful record phase
consumes the remaining buffer as a sequence of such records, landing exactly
on the buffer end. -/
theorem record_stride_exact_consumption (meta : MarketMetadata)
    (hdr : AuditLogHeader) (sig fuel : Nat) (rem : List Nat)
    (acc l : List PhoenixEvent)
    (h : parseBuffer meta hdr sig fuel rem acc = .ok l) :
    ConsumesRecords rem
    ∧ recordSize 2 = some 67 ∧ recordSize 4 = some 35 ∧ recordSize 3 = some 43
    ∧ recordSize 5 = some 58 ∧ recordSize 6 = some 43 :=
  ⟨parseBuffer_ok_consumes meta hdr sig fuel rem acc l h, rfl, rfl, rfl, rfl, rfl⟩

set_option maxRecDepth 8000 in
/-- Witness for the amended C3 on the serialized single-`Reduce` record
region. -/
theorem record_stride_exact_consumption_witness :
    ConsumesRecords (encodeRecords [recRed])
    ∧ recordSize 2 = some 67 ∧ recordSize 4 = some 35 ∧ recordSize 3 = some 43
    ∧ recordSize 5 = some 58 ∧ recordSize 6 = some 43 :=
  record_stride_exact_consumption metaX hdrX 7 40 (encodeRecords [recRed]) []
    [recordEvent metaX hdrX 7 recRed] (by decide)

/-- C8: a decoded `FillSummary` event carries absolute amounts — the raw
payload lot counts multiplied by `base_lot_size` / `quote_lot_size` — while
every other record kind is emitted with its lot/tick fields verbatim
(`Fill`, `Reduce`, `Place`, `Evict` events copy the payload fields
unchanged). -/
theorem fill_summary_scaling_and_other_kinds_unchanged
    (core : SDKClientCore) (meta : MarketMetadata) (hdr : AuditLogHeader)
    (sig idx coid tb tq tf : Nat)
    (hm : core.markets.lookup core.active_market_key = some meta)
    (hh : boundedHeader hdr)
    (hfs : boundedRecord (.fillSummary idx coid tb tq tf))
    (hsb : tb * meta.base_lot_size < U64_MOD)
    (hsq : tq * meta.quote_lot_size < U64_MOD)
    (hsf : tf * meta.quote_lot_size < U64_MOD) :
    parseWrapperEvents core sig
        [encodeHeader hdr ++ encodeRecords [.fillSummary idx coid tb tq tf]]
      = .ok [{ market := hdr.market, sequence_number := hdr.market_sequence_number,
               slot := hdr.slot, timestamp := hdr.timestamp, signature := sig,
               signer := hdr.signer, event_index := idx,
               details := .FillSummary
                 { client_order_id := coid,
                   total_base_filled := tb * meta.base_lot_size,
                   total_quote_filled_including_fees := tq * meta.quote_lot_size,
                   total_quote_fees := tf * meta.quote_lot_size } }]
    ∧ (∀ r : WrapperRecord, boundedRecord r →
        parseWrapperEvents core sig [encodeHeader hdr ++ encodeRecords [r]]
          = .ok [recordEvent meta hdr sig r])
    ∧ (∀ i m s p f rm : Nat, recordEvent meta hdr sig (.fill i m s p f rm)
        = { market := hdr.market, sequence_number := hdr.market_sequence_number,
            slot := hdr.slot, timestamp := hdr.timestamp, signature := sig,
            signer := hdr.signer, event_index := i,
            details := .Fill
              { order_sequence_number := s, maker := m, taker := hdr.signer,
                price_in_ticks := p, base_lots_filled := f,
                base_lots_remaining := rm,
                side_filled := sideFromOrderSequenceNumber s,
                is_full_fill := rm == 0 } })
    ∧ (∀ i s p rmv rm : Nat, recordEvent meta hdr sig (.reduce i s p rmv rm)
        = { market := hdr.market, sequence_number := hdr.market_sequence_number,
            slot := hdr.slot, timestamp := hdr.timestamp, signature := sig,
            signer := hdr.signer, event_index := i,
            details := .Reduce
              { order_sequence_number := s, maker := hdr.signer,
                price_in_ticks := p, base_lots_removed := rmv,
                base_lots_remaining := rm, is_full_cancel := rm == 0 } })
    ∧ (∀ i s c p pl : Nat, recordEvent meta hdr sig (.place i s c p pl)
        = { market := hdr.market, sequence_number := hdr.market_sequence_number,
            slot := hdr.slot, timestamp := hdr.timestamp, signature := sig,
            signer := hdr.signer, event_index := i,
            details := .Place
              { order_sequence_number := s, client_order_id := c,
                maker := hdr.signer, price_in_ticks := p,
                base_lots_placed := pl } })
    ∧ (∀ i m s p e : Nat, recordEvent meta hdr sig (.evict i m s p e)
        = { market := hdr.market, sequence_number := hdr.market_sequence_number,
            slot := hdr.slot, timestamp := hdr.timestamp, signature := sig,
            signer := hdr.signer, event_index := i,
            details := .Evict
              { order_sequence_number := s, maker := m, price_in_ticks := p,
                base_lots_evicted := e } }) := by
  refine ⟨?_, ?_, fun _ _ _ _ _ _ => rfl, fun _ _ _ _ _ => rfl,
    fun _ _ _ _ _ => rfl, fun _ _ _ _ _ => rfl⟩
  · have h := parseWrapperEvents_encodeLog core meta hdr sig
      [.fillSummary idx coid tb tq tf] hm hh
      (by
        intro x hx
        rw [List.mem_singleton] at hx
        subst hx
        exact hfs)
    rw [h]
    simp only [List.map_cons, List.map_nil, recordEvent, mulU64]
    rw [Nat.mod_eq_of_lt hsb, Nat.mod_eq_of_lt hsq, Nat.mod_eq_of_lt hsf]
  · intro r hr
    have h := parseWrapperEvents_encodeLog core meta hdr sig [r] hm hh
      (by
        intro x hx
        rw [List.mem_singleton] at hx
        subst hx
        exact hr)
    simpa using h

set_option maxRecDepth 8000 in
/-- Witness for C8: with base lot size 1000 and quote lot size 10, the
`FillSummary` payload `(5, 6, 8)` yields amounts `(5000, 60, 80)` — in
particular `total_base_lots_filled = 5` gives `total_base_filled = 5000` —
and a `Fill` record decodes with its fields verbatim. -/
theorem fill_summary_scaling_and_other_kinds_unchanged_witness :
    parseWrapperEvents coreX 5 [encodeHeader hdrX ++ encodeRecords [recFS]]
      = .ok [{ market := 77, sequence_number := 1, slot := 2, timestamp := 3,
               signature := 5, signer := 88, event_index := 0,
               details := .FillSummary
                 { client_order_id := 7, total_base_filled := 5000,
                   total_quote_filled_including_fees := 60,
                   total_quote_fees := 80 } }]
    ∧ parseWrapperEvents coreX 5 [encodeHeader hdrX ++ encodeRecords [recFil]]
      = .ok [recordEvent metaX hdrX 5 recFil] :=
  ⟨(fill_summary_scaling_and_other_kinds_unchanged coreX metaX hdrX 5 0 7 5 6 8
      rfl (by decide) (by decide) (by decide) (by decide) (by decide)).1,
   (fill_summary_scaling_and_other_kinds_unchanged coreX metaX hdrX 5 0 7 5 6 8
      rfl (by decide) (by decide) (by decide) (by decide) (by decide)).2.1
      recFil (by decide)⟩

/-- C9 (amended): the decoded event list preserves raw-log byte order — the
log assembled from records `rs` decodes to exactly the per-record events in
the same order — and each event's `event_index` is copied verbatim from the
`index` field of its record payload; the decoder neither derives it from the
position in the log nor checks uniqueness or monotonicity. -/
theorem decode_order_and_event_index_from_payload (core : SDKClientCore)
    (meta : MarketMetadata) (hdr : AuditLogHeader) (sig : Nat)
    (rs : List WrapperRecord)
    (hm : core.markets.lookup core.active_market_key = some meta)
    (hh : boundedHeader hdr) (hb : ∀ r ∈ rs, boundedRecord r) :
    parseWrapperEvents core sig [encodeHeader hdr ++ encodeRecords rs]
        = .ok (rs.map (recordEvent meta hdr sig))
    ∧ ∀ r ∈ rs, (recordEvent meta hdr sig r).event_index = recordIndex r := by
  refine ⟨parseWrapperEvents_encodeLog core meta hdr sig rs hm hh hb, ?_⟩
  intro r _
  cases r <;> rfl

set_option maxRecDepth 8000 in
/-- Witness for the amended C9 on a two-record log. -/
theorem decode_order_and_event_index_from_payload_witness :
    parseWrapperEvents coreX 3 [encodeHeader hdrX ++ encodeRecords [recRed, recFil]]
        = .ok [recordEvent metaX hdrX 3 recRed, recordEvent metaX hdrX 3 recFil]
    ∧ ∀ r ∈ [recRed, recFil],
        (recordEvent metaX hdrX 3 r).event_index = recordIndex r :=
  decode_order_and_event_index_from_payload coreX metaX hdrX 3 [recRed, recFil]
    rfl (by decide) (by decide)

set_option maxRecDepth 8000 in
/-- C9 counterexample: a log with two records whose payload index fields are
both `0` decodes to two events with `event_index` `0` and `0` — the indices
are neither unique nor monotonically increasing, and the second event's index
does not equal its position `1` in the log. -/
theorem event_index_not_unique_example :
    parseWrapperEvents coreX 11 [encodeHeader hdrX ++ encodeRecords [recDupA, recDupB]]
        = .ok [recordEvent metaX hdrX 11 recDupA, recordEvent metaX hdrX 11 recDupB]
    ∧ (recordEvent metaX hdrX 11 recDupA).event_index = 0
    ∧ (recordEvent metaX hdrX 11 recDupB).event_index = 0
    ∧ (recordEvent metaX hdrX 11 recDupB).event_index ≠ 1 :=
  ⟨by decide, by decide, by decide, by decide⟩
